import Mathlib

/-!
Shallow embedding of the host-side execution driver of the fox32 emulator
(src/src/main.c): the timing/budget computation of `main_loop`, the adaptive
cycle-autoadjust branch, the per-millisecond slice loop driving
`fox32_resume`/`fox32_recover`, the interrupt-dispatch phase, and the
draw-request behaviour in headless mode.

Machine integers are modelled as `Nat`/`Int`; in the modelled domain
(`elapsed_ms ≥ 0` and counters far below 2^31) the C `int` arithmetic of the
source coincides with the ideal-integer arithmetic used here.
-/

/-- FPS constant (main.c line 37). -/
def FPS : Nat := 60

/-- TPF constant, ticks per frame (main.c line 38). -/
def TPF : Nat := 1

/-- TPS constant (main.c line 39): `FPS * TPF`. -/
def TPS : Nat := FPS * TPF

/-- CYCLE_AUTOADJUST_TOLERANCE constant (main.c line 31). -/
def CYCLE_AUTOADJUST_TOLERANCE : Nat := 10

/-- CYCLE_AUTOADJUST_ADD constant (main.c line 32). -/
def CYCLE_AUTOADJUST_ADD : Nat := 1000

/-- Modelled from the spec: `FOX32_CPU_HZ` is defined in `cpu.h`, which is not
under `src/`; the spec fixes `target_cpu_hz = 64000000`. -/
def FOX32_CPU_HZ : Nat := 64000000

/-- Clamp of the elapsed time (main.c lines 169-170): `if (!dt) dt = 1;`.
For `elapsed_ms ≥ 0` this is exactly a clamp of 0 to 1. -/
def clampDt (elapsed_ms : Nat) : Nat :=
  if elapsed_ms = 0 then 1 else elapsed_ms

/-- Budget computation of `main_loop` (main.c lines 167-173): returns
`(cycles_per_tick, extra_cycles)` for a given nonnegative elapsed time.
`cycles_per_tick = FOX32_CPU_HZ / TPS / dt` and
`extra_cycles = FOX32_CPU_HZ / TPS - cycles_per_tick * dt`, with C integer
division; on the nonnegative domain this is `Nat` division. -/
def nextBudget (elapsed_ms : Nat) : Nat × Nat :=
  let dt := clampDt elapsed_ms
  let cycles_per_tick := FOX32_CPU_HZ / TPS / dt
  (cycles_per_tick, FOX32_CPU_HZ / TPS - cycles_per_tick * dt)

/-- Budget of millisecond slice `i` of a tick of `dt` slices (main.c lines
199-202): `cycles_left = cycles_per_tick`, plus `extra_cycles` when
`i == dt - 1`. -/
def sliceBudget (dt : Nat) (cycles_per_tick extra_cycles : Int) (i : Nat) : Int :=
  if i = dt - 1 then cycles_per_tick + extra_cycles else cycles_per_tick

/-- Measured ticks-per-second of the autoadjust branch (main.c line 176):
`last_tps = 1000 / (dt / TPF)`. -/
def lastTps (dt : Nat) : Nat := 1000 / (dt / TPF)

/-- Result of one run of the autoadjust branch. -/
structure AdaptOut where
  cycles_per_tick : Int
  extra_cycles : Int
  last_cycle_count : Int
  deriving DecidableEq

/-- Adaptive budget computation (main.c lines 167-187, with CYCLE_AUTOADJUST
defined). `last_cycle_count` is the persisted estimate before the call;
`elapsed_ms` the nonnegative elapsed time. The slow branch's float
recomputation `(int)((1000.0f / TPS) / mspc)` (a nonnegative value, or the
unchanged base budget when `mspc` is not normal) is abstracted as the
parameter `slowRecompute`, quantified over all nonnegative integers. -/
def adaptStep (last_cycle_count : Int) (elapsed_ms : Nat) (slowRecompute : Nat) : AdaptOut :=
  let dt := clampDt elapsed_ms
  let cpt0 : Int := ((FOX32_CPU_HZ / TPS / dt : Nat) : Int)
  let ex0 : Int := ((FOX32_CPU_HZ / TPS - FOX32_CPU_HZ / TPS / dt * dt : Nat) : Int)
  let tps := lastTps dt
  let p : Int × Int :=
    if TPS - CYCLE_AUTOADJUST_TOLERANCE < tps ∧ tps < TPS + CYCLE_AUTOADJUST_TOLERANCE then
      (last_cycle_count, 0)
    else if tps < TPS then
      ((slowRecompute : Int), 0)
    else
      (cpt0, ex0)
  let ex := p.2 + (CYCLE_AUTOADJUST_ADD : Int)
  ⟨p.1, ex, p.1 + ex⟩

/-- Initial value of `last_cycle_count` (main.c line 51). -/
def lccInit : Int := 1

/-- Two's-complement wrap of an ideal integer into a 32-bit signed C `int`:
the representative of `x` modulo 2^32 lying in `[-2^31, 2^31)`. -/
def toInt32 (x : Int) : Int := (x + 2147483648) % 4294967296 - 2147483648

/-- Adaptive budget computation with the persisted estimate stored back into
the 32-bit C `int` `last_cycle_count` (main.c line 186): the assignment
`last_cycle_count = cycles_per_tick + extra_cycles` is modelled with
two's-complement wrap (signed `int` overflow is undefined behaviour in C;
wrap is the common concrete behaviour, and either way positivity is lost).
The intermediate `cycles_per_tick` and `extra_cycles` values are left ideal:
for estimates within `int` range they do not overflow. -/
def adaptStep32 (last_cycle_count : Int) (elapsed_ms : Nat) (slowRecompute : Nat) : AdaptOut :=
  let a := adaptStep last_cycle_count elapsed_ms slowRecompute
  ⟨a.cycles_per_tick, a.extra_cycles, toInt32 a.last_cycle_count⟩

/-- Persisted 32-bit estimate after a session: the fold of `adaptStep32` over
a sequence of `(elapsed_ms, slowRecompute)` inputs starting from `lccInit`. -/
def lccSeq32 (inputs : List (Nat × Nat)) : Int :=
  inputs.foldl (fun lcc p => (adaptStep32 lcc p.1 p.2).last_cycle_count) lccInit

/-- Result of the interrupt-dispatch phase (main.c lines 219-224):
number of draw requests issued, number of vsync raises into the context,
and the halted flag after the phase. -/
structure DispatchOut where
  draws : Nat
  raises : Nat
  halted : Bool
  deriving DecidableEq

/-- Interrupt-dispatch phase of one `main_loop` iteration (main.c lines
219-224): when `ticks % TPF == 0`, issue a draw request unless headless,
raise `VSYNC_INTERRUPT_VECTOR` once, and set `vm.halted = false`. -/
def dispatchTick (ticks : Nat) (headless halted : Bool) : DispatchOut :=
  if ticks % TPF = 0 then
    { draws := if headless then 0 else 1, raises := 1, halted := false }
  else
    { draws := 0, raises := 0, halted := halted }

/-- Draw requests issued at startup (main.c lines 112-133): `ScreenDraw()` is
called once inside `if (!vm.headless)`. -/
def startupDraws (headless : Bool) : Nat :=
  if headless then 0 else 1

/-- Total draw requests after startup plus `n` iterations of `main_loop`
(tick counter starting at 0). -/
def sessionDraws (headless : Bool) : Nat → Nat
  | 0 => startupDraws headless
  | n + 1 => sessionDraws headless n + (dispatchTick n headless false).draws

/-- Events of one tick of `main_loop` (the body of the `for` over millisecond
slices, main.c lines 191-216): per slice `i`, the uptime-counter update, the
wall-time update, then the cycle execution for the slice. -/
inductive TickEv where
  | rtcUptime (i : Nat)
  | rtcTime (i : Nat)
  | execSlice (i : Nat)
  deriving DecidableEq

/-- Event trace of the slices `start, start+1, ...` (`n` slices): main.c
lines 191-216 put the `rtc_uptime` update first, then `rtc_time = time(NULL)`,
then the budget-consumption `while` loop of the slice. -/
def tickTraceAux : Nat → Nat → List TickEv
  | _, 0 => []
  | i, n + 1 =>
      TickEv.rtcUptime i :: TickEv.rtcTime i :: TickEv.execSlice i :: tickTraceAux (i + 1) n

/-- Event trace of one whole tick of `dt` millisecond slices. -/
def tickTrace (dt : Nat) : List TickEv := tickTraceAux 0 dt

/-- Position of the first occurrence of an event in a trace (length of the
trace when absent). -/
def evPos (e : TickEv) : List TickEv → Nat
  | [] => 0
  | x :: xs => if x = e then 0 else evPos e xs + 1

/-- Response of one `fox32_resume` call followed, on fault, by
`fox32_recover`: whether `fox32_resume` returned an error, whether
`fox32_recover` cleared it, and the executed-cycle count written by
`fox32_resume`. -/
structure Resp where
  fault : Bool
  recoverable : Bool
  executed : Nat
  deriving DecidableEq

/-- Outcome of one millisecond slice's budget-consumption `while` loop. -/
structure SliceOut where
  executed : Nat
  next : Nat
  broke : Bool
  remaining : Int
  deriving DecidableEq

/-- The inner `while (cycles_left > 0)` loop of `main_loop` (main.c lines
204-216), driven by an oracle `resps` giving the response of the `k`-th
resume call when passed budget `cl`. `fuel` bounds the number of iterations
(the C loop has no such bound; `none` means the bound was hit). On an
unrecoverable fault the loop breaks without subtracting the executed count
from `cycles_left` (the `break` precedes `cycles_left -= executed`). -/
def runSlice : Nat → Int → (Nat → Int → Resp) → Nat → Option SliceOut
  | 0, _, _, _ => none
  | fuel + 1, cl, resps, k =>
    if cl ≤ 0 then some ⟨0, k, false, cl⟩
    else
      let r := resps k cl
      if r.fault && !r.recoverable then some ⟨r.executed, k + 1, true, cl⟩
      else
        (runSlice fuel (cl - (r.executed : Int)) resps (k + 1)).map
          fun out => ⟨r.executed + out.executed, out.next, out.broke, out.remaining⟩

/-- The `for (int i = 0; ...)` slice loop of one tick, over an explicit list
of slice budgets, threading the resume-call counter: returns the total
executed count, the next call index, and whether any slice broke on an
unrecoverable fault. -/
def runSlices (fuel : Nat) (resps : Nat → Int → Resp) :
    List Int → Nat → Option (Nat × Nat × Bool)
  | [], k => some (0, k, false)
  | b :: bs, k =>
    (runSlice fuel b resps k).bind fun out =>
      (runSlices fuel resps bs out.next).map fun trip =>
        (out.executed + trip.1, trip.2.1, trip.2.2 || out.broke)

/-- One tick of `main_loop` (main.c lines 189-217): `dt` millisecond slices,
slice `i` getting budget `sliceBudget dt cycles_per_tick extra_cycles i`. -/
def runTick (fuel dt : Nat) (cycles_per_tick extra_cycles : Int)
    (resps : Nat → Int → Resp) : Option (Nat × Nat × Bool) :=
  runSlices fuel resps ((List.range dt).map (sliceBudget dt cycles_per_tick extra_cycles)) 0

/-- Contract of `fox32_resume` (spec 4.2): a run never executes more than the
budget it was passed. -/
def ResumeContract (resps : Nat → Int → Resp) : Prop :=
  ∀ k cl, 0 < cl → ((resps k cl).executed : Int) ≤ cl

/-- Contract of a faulting `fox32_resume` run (spec 4.2: the count "may be
less, e.g. if a fault interrupts execution mid-budget"): a call that ends in
a fault with failing recovery executed strictly fewer cycles than requested. -/
def FaultUnderruns (resps : Nat → Int → Resp) : Prop :=
  ∀ k cl, 0 < cl → (resps k cl).fault = true → (resps k cl).recoverable = false →
    ((resps k cl).executed : Int) < cl

/-- Oracle of the C5 counterexample: the first resume call faults
unrecoverably having executed nothing; every later call succeeds with 5
executed cycles. -/
def c5resps : Nat → Int → Resp :=
  fun k _ => if k = 0 then ⟨true, false, 0⟩ else ⟨false, false, 5⟩

/-- Oracle whose calls always succeed executing exactly one cycle. -/
def c10oneResp : Nat → Int → Resp := fun _ _ => ⟨false, true, 1⟩

/-- Oracle whose calls always succeed executing zero cycles. -/
def c10zeroResp : Nat → Int → Resp := fun _ _ => ⟨false, true, 0⟩

/-- Oracle whose calls always fault unrecoverably having executed nothing. -/
def c5witResp : Nat → Int → Resp := fun _ _ => ⟨true, false, 0⟩

/-- Helper: the per-tick base `FOX32_CPU_HZ / TPS` evaluates to 1066666. -/
theorem cpuHzDivTps : FOX32_CPU_HZ / TPS = 1066666 := by decide

/-- C1, counterexample: at `elapsed_ms = 1066667` the budget computation does
run (divisor clamped to the nonzero 1066667) but the per-millisecond cycle
count it returns is 0, not a positive integer. -/
theorem c1_counterexample :
    clampDt 1066667 = 1066667 ∧ (nextBudget 1066667).1 = 0 ∧ ¬ 0 < (nextBudget 1066667).1 := by
  refine ⟨by decide, by decide, by decide⟩

/-- C1, amended: for every `elapsed_ms ≥ 0` the divisors of the budget
computation are positive (no division by zero), and the per-millisecond
cycle count is positive exactly when the clamped elapsed time does not
exceed `FOX32_CPU_HZ / TPS` (= 1066666 ms); beyond that it is 0. -/
theorem c1_budget_no_div_by_zero (elapsed_ms : Nat) :
    0 < clampDt elapsed_ms ∧ 0 < TPS ∧
    (elapsed_ms ≤ FOX32_CPU_HZ / TPS → 0 < (nextBudget elapsed_ms).1) ∧
    (FOX32_CPU_HZ / TPS < elapsed_ms → (nextBudget elapsed_ms).1 = 0) := by
  have hdt : 0 < clampDt elapsed_ms := by
    unfold clampDt; split <;> omega
  refine ⟨hdt, by decide, ?_, ?_⟩
  · intro hle
    have hdle : clampDt elapsed_ms ≤ FOX32_CPU_HZ / TPS := by
      unfold clampDt at *
      rw [cpuHzDivTps] at *
      split <;> omega
    exact Nat.div_pos hdle hdt
  · intro hlt
    have hlt2 : FOX32_CPU_HZ / TPS < clampDt elapsed_ms := by
      unfold clampDt at *; split <;> omega
    exact Nat.div_eq_of_lt hlt2

/-- C1, witness for the amended theorem at `elapsed_ms = 16`. -/
theorem c1_budget_no_div_by_zero_witness :
    0 < clampDt 16 ∧ (16 ≤ FOX32_CPU_HZ / TPS ∧ 0 < (nextBudget 16).1) :=
  ⟨(c1_budget_no_div_by_zero 16).1,
   by decide,
   (c1_budget_no_div_by_zero 16).2.2.1 (by decide)⟩

/-- C2, counterexample: at `elapsed_ms = 16` the base per-millisecond budget
is 66666 as claimed, but the leftover is `1066666 - 66666 * 16 = 10` cycles,
not 666. -/
theorem c2_counterexample :
    (nextBudget 16).1 = 66666 ∧ (nextBudget 16).2 = 10 ∧ (nextBudget 16).2 ≠ 666 := by
  refine ⟨by decide, by decide, by decide⟩

/-- C2, amended: for `target_cpu_hz = 64000000`, `ticks_per_second = 60`,
`elapsed_ms = 16`, the budget computation yields a base per-millisecond
budget of 66666 cycles and a leftover of 10 cycles (`64000000/60` in C
integer arithmetic is 1066666, and `1066666 - 66666*16 = 10`), and the
leftover is added entirely to the final millisecond slice of the tick
(slice 15 gets 66676 cycles, every earlier slice 66666). -/
theorem c2_scenario_budget :
    nextBudget 16 = (66666, 10) ∧
    sliceBudget 16 66666 10 15 = 66676 ∧
    (∀ i : Nat, i < 15 → sliceBudget 16 66666 10 i = 66666) := by
  refine ⟨by decide, by decide, ?_⟩
  intro i hi
  unfold sliceBudget
  rw [if_neg (by omega)]

/-- C2, witness for the amended theorem at slice `i = 3`. -/
theorem c2_scenario_budget_witness :
    (3 : Nat) < 15 ∧ sliceBudget 16 66666 10 3 = 66666 :=
  ⟨by decide, c2_scenario_budget.2.2 3 (by decide)⟩

/-- C3, counterexample: with the persisted estimate at its initial value 1
and `elapsed_ms = 16` (measured tps 62, inside the ±10 band around 60), the
adaptive step persists `1 + 1000 = 1001`, not the unchanged 1: the estimate
is not kept unchanged across an in-band tick. -/
theorem c3_counterexample :
    (TPS - CYCLE_AUTOADJUST_TOLERANCE < lastTps (clampDt 16) ∧
      lastTps (clampDt 16) < TPS + CYCLE_AUTOADJUST_TOLERANCE) ∧
    (adaptStep 1 16 0).last_cycle_count = 1001 ∧
    (adaptStep 1 16 0).last_cycle_count ≠ 1 := by
  refine ⟨by decide, by decide, by decide⟩

/-- C3, amended: in adaptive mode, when the measured ticks-per-second lies
inside the ±10 band around the target, the step uses the previous estimate
as this tick's base budget and drops the rounding leftover, but the fixed
margin `CYCLE_AUTOADJUST_ADD = 1000` is still added as the final-slice
leftover and the persisted estimate becomes the previous estimate plus 1000:
the estimate grows by 1000 on every in-band tick rather than holding
stable. -/
theorem c3_in_band_step (last_cycle_count : Int) (elapsed_ms slowRecompute : Nat)
    (hband : TPS - CYCLE_AUTOADJUST_TOLERANCE < lastTps (clampDt elapsed_ms) ∧
      lastTps (clampDt elapsed_ms) < TPS + CYCLE_AUTOADJUST_TOLERANCE) :
    (adaptStep last_cycle_count elapsed_ms slowRecompute).cycles_per_tick = last_cycle_count ∧
    (adaptStep last_cycle_count elapsed_ms slowRecompute).extra_cycles = 1000 ∧
    (adaptStep last_cycle_count elapsed_ms slowRecompute).last_cycle_count
      = last_cycle_count + 1000 := by
  simp only [adaptStep]
  rw [if_pos hband]
  refine ⟨rfl, by norm_num [CYCLE_AUTOADJUST_ADD], by norm_num [CYCLE_AUTOADJUST_ADD]⟩

/-- C3, witness for the amended theorem at estimate 66666, `elapsed_ms = 16`. -/
theorem c3_in_band_step_witness :
    (TPS - CYCLE_AUTOADJUST_TOLERANCE < lastTps (clampDt 16) ∧
      lastTps (clampDt 16) < TPS + CYCLE_AUTOADJUST_TOLERANCE) ∧
    ((adaptStep 66666 16 0).cycles_per_tick = 66666 ∧
     (adaptStep 66666 16 0).extra_cycles = 1000 ∧
     (adaptStep 66666 16 0).last_cycle_count = 66666 + 1000) :=
  ⟨by decide, c3_in_band_step 66666 16 0 (by decide)⟩

/-- C6: `TPF = 1`, and on every iteration the interrupt-dispatch phase raises
the vertical-sync vector into the context exactly once and sets the halted
flag to false, whatever its prior value and whether or not headless. -/
theorem c6_vsync_every_tick :
    TPF = 1 ∧
    ∀ (ticks : Nat) (headless halted : Bool),
      (dispatchTick ticks headless halted).raises = 1 ∧
      (dispatchTick ticks headless halted).halted = false := by
  refine ⟨rfl, ?_⟩
  intro ticks headless halted
  unfold dispatchTick
  rw [if_pos (by simp [TPF, Nat.mod_one])]
  exact ⟨rfl, rfl⟩

/-- C7: in headless mode no draw request is ever issued: the total draw count
after startup and any number `n` of main-loop iterations is 0. -/
theorem c7_headless_no_draws : ∀ n : Nat, sessionDraws true n = 0 := by
  intro n
  induction n with
  | zero => rfl
  | succ m ih =>
      unfold sessionDraws dispatchTick
      rw [ih]
      split <;> rfl

/-- Helper: position of the uptime-update event of slice `s + i` in the trace
of `n` slices starting at `s`. -/
theorem evPos_rtcUptime : ∀ (n s i : Nat), i < n →
    evPos (TickEv.rtcUptime (s + i)) (tickTraceAux s n) = 3 * i := by
  intro n
  induction n with
  | zero => intro s i h; omega
  | succ m ih =>
    intro s i h
    cases i with
    | zero => simp [tickTraceAux, evPos]
    | succ j =>
      have h1 : TickEv.rtcUptime s ≠ TickEv.rtcUptime (s + (j + 1)) := by
        intro he; simp only [TickEv.rtcUptime.injEq] at he; omega
      have h2 : TickEv.rtcTime s ≠ TickEv.rtcUptime (s + (j + 1)) := by
        intro he; exact TickEv.noConfusion he
      have h3 : TickEv.execSlice s ≠ TickEv.rtcUptime (s + (j + 1)) := by
        intro he; exact TickEv.noConfusion he
      have heq : s + (j + 1) = (s + 1) + j := by omega
      rw [tickTraceAux]
      simp only [evPos, if_neg h1, if_neg h2, if_neg h3]
      rw [heq, ih (s + 1) j (by omega)]
      omega

/-- Helper: position of the wall-time-update event of slice `s + i`. -/
theorem evPos_rtcTime : ∀ (n s i : Nat), i < n →
    evPos (TickEv.rtcTime (s + i)) (tickTraceAux s n) = 3 * i + 1 := by
  intro n
  induction n with
  | zero => intro s i h; omega
  | succ m ih =>
    intro s i h
    cases i with
    | zero => simp [tickTraceAux, evPos]
    | succ j =>
      have h1 : TickEv.rtcUptime s ≠ TickEv.rtcTime (s + (j + 1)) := by
        intro he; exact TickEv.noConfusion he
      have h2 : TickEv.rtcTime s ≠ TickEv.rtcTime (s + (j + 1)) := by
        intro he; simp only [TickEv.rtcTime.injEq] at he; omega
      have h3 : TickEv.execSlice s ≠ TickEv.rtcTime (s + (j + 1)) := by
        intro he; exact TickEv.noConfusion he
      have heq : s + (j + 1) = (s + 1) + j := by omega
      rw [tickTraceAux]
      simp only [evPos, if_neg h1, if_neg h2, if_neg h3]
      rw [heq, ih (s + 1) j (by omega)]
      omega

/-- Helper: position of the cycle-execution event of slice `s + i`. -/
theorem evPos_execSlice : ∀ (n s i : Nat), i < n →
    evPos (TickEv.execSlice (s + i)) (tickTraceAux s n) = 3 * i + 2 := by
  intro n
  induction n with
  | zero => intro s i h; omega
  | succ m ih =>
    intro s i h
    cases i with
    | zero => simp [tickTraceAux, evPos]
    | succ j =>
      have h1 : TickEv.rtcUptime s ≠ TickEv.execSlice (s + (j + 1)) := by
        intro he; exact TickEv.noConfusion he
      have h2 : TickEv.rtcTime s ≠ TickEv.execSlice (s + (j + 1)) := by
        intro he; exact TickEv.noConfusion he
      have h3 : TickEv.execSlice s ≠ TickEv.execSlice (s + (j + 1)) := by
        intro he; simp only [TickEv.execSlice.injEq] at he; omega
      have heq : s + (j + 1) = (s + 1) + j := by omega
      rw [tickTraceAux]
      simp only [evPos, if_neg h1, if_neg h2, if_neg h3]
      rw [heq, ih (s + 1) j (by omega)]
      omega

/-- C8, counterexample: in the trace of a tick of one millisecond slice, the
cycle execution of slice 0 does not come before the uptime-counter update of
slice 0 nor before the wall-time update of slice 0 — both Real-Time Clock
Shadow updates of a slice precede that slice's cycle execution. -/
theorem c8_counterexample :
    ¬ evPos (TickEv.execSlice 0) (tickTrace 1) < evPos (TickEv.rtcUptime 0) (tickTrace 1) ∧
    ¬ evPos (TickEv.execSlice 0) (tickTrace 1) < evPos (TickEv.rtcTime 0) (tickTrace 1) := by
  refine ⟨by decide, by decide⟩

/-- C8, amended: within one iteration, for every millisecond slice `i`, the
Real-Time Clock Shadow (uptime counter and wall time) for slice `i` is
advanced before the cycle execution of slice `i`, and the cycle execution of
slice `i` completes before the Real-Time Clock Shadow of the next slice is
advanced. -/
theorem c8_rtc_before_exec (dt i : Nat) (h : i < dt) :
    evPos (TickEv.rtcUptime i) (tickTrace dt) < evPos (TickEv.execSlice i) (tickTrace dt) ∧
    evPos (TickEv.rtcTime i) (tickTrace dt) < evPos (TickEv.execSlice i) (tickTrace dt) ∧
    (i + 1 < dt →
      evPos (TickEv.execSlice i) (tickTrace dt) <
        evPos (TickEv.rtcUptime (i + 1)) (tickTrace dt)) := by
  have hu := evPos_rtcUptime dt 0 i h
  have ht := evPos_rtcTime dt 0 i h
  have he := evPos_execSlice dt 0 i h
  rw [Nat.zero_add] at hu ht he
  unfold tickTrace
  refine ⟨by omega, by omega, ?_⟩
  intro hi
  have hu2 := evPos_rtcUptime dt 0 (i + 1) hi
  rw [Nat.zero_add] at hu2
  omega

/-- C8, witness for the amended theorem at `dt = 2`, slice 0. -/
theorem c8_rtc_before_exec_witness :
    (0 : Nat) < 2 ∧
    evPos (TickEv.rtcUptime 0) (tickTrace 2) < evPos (TickEv.execSlice 0) (tickTrace 2) :=
  ⟨by decide, (c8_rtc_before_exec 2 0 (by decide)).1⟩

/-- Helper: one adaptive step maps a positive persisted estimate to a
positive one (every branch adds the margin 1000 to a nonnegative base, or
keeps the positive previous estimate). -/
theorem adaptStep_pos (lcc : Int) (e sr : Nat) (h : 0 < lcc) :
    0 < (adaptStep lcc e sr).last_cycle_count := by
  simp only [adaptStep]
  split
  · norm_num [CYCLE_AUTOADJUST_ADD]; omega
  · split
    · norm_num [CYCLE_AUTOADJUST_ADD]; positivity
    · norm_num [CYCLE_AUTOADJUST_ADD]; positivity

/-- Helper: an in-band adaptive step at 16 ms elapsed (measured tps 62,
inside the ±10 band around 60) computes the ideal persisted value
previous estimate plus 1000. -/
theorem adaptStep_in_band_16 (lcc : Int) :
    (adaptStep lcc 16 0).last_cycle_count = lcc + 1000 := by
  simp only [adaptStep]
  rw [if_pos (by decide)]
  norm_num [CYCLE_AUTOADJUST_ADD]

/-- Helper: 32-bit wrapping is a congruence for addition: wrapping an
already wrapped summand does not change the wrapped sum. -/
theorem toInt32_add (x y : Int) : toInt32 (toInt32 x + y) = toInt32 (x + y) := by
  unfold toInt32
  omega

/-- Helper: closed form of the persisted 32-bit estimate after `n` in-band
ticks of 16 ms: starting from a wrapped value `toInt32 x`, the stored
estimate is `toInt32 (x + 1000 * n)`. -/
theorem fold32_replicate : ∀ (n : Nat) (x : Int),
    (List.replicate n ((16 : Nat), (0 : Nat))).foldl
      (fun lcc p => (adaptStep32 lcc p.1 p.2).last_cycle_count) (toInt32 x)
    = toInt32 (x + 1000 * (n : Int)) := by
  intro n
  induction n with
  | zero => intro x; simp
  | succ m ih =>
    intro x
    rw [List.replicate_succ, List.foldl_cons]
    have hstep : (adaptStep32 (toInt32 x) 16 0).last_cycle_count = toInt32 (x + 1000) := by
      show toInt32 ((adaptStep (toInt32 x) 16 0).last_cycle_count) = toInt32 (x + 1000)
      rw [adaptStep_in_band_16, toInt32_add]
    rw [hstep, ih (x + 1000)]
    congr 1
    push_cast
    ring

/-- C9, counterexample: the persisted estimate lives in a 32-bit C `int`,
and every in-band tick adds 1000 to it unconditionally, so the concrete
input sequence of 2147484 in-band ticks of 16 ms drives the stored value of
`last_cycle_count` past `INT_MAX` (ideal value 1 + 1000·2147484 =
2147484001 > 2^31 - 1): the wrapped estimate is -2147483295, not positive —
positivity does not hold for every sequence of elapsed-time inputs. -/
theorem c9_counterexample :
    lccSeq32 (List.replicate 2147484 ((16 : Nat), (0 : Nat))) = -2147483295 ∧
    ¬ 0 < lccSeq32 (List.replicate 2147484 ((16 : Nat), (0 : Nat))) := by
  have h1 : lccInit = toInt32 1 := by decide
  unfold lccSeq32
  rw [h1, fold32_replicate 2147484 1]
  refine ⟨by decide, by decide⟩

/-- C9, amended: the persisted cycles-per-tick estimate is positive at
initialization, and every adaptive update preserves positivity provided the
updated value does not overflow the 32-bit `int` (ideal updated value at
most `INT_MAX` = 2147483647); without that proviso positivity fails, since
sequences of in-band ticks grow the estimate by 1000 per tick until it
wraps negative after about 2.15 million such ticks. -/
theorem c9_estimate_positive_no_overflow :
    0 < lccInit ∧
    ∀ (lcc : Int) (e sr : Nat), 0 < lcc →
      (adaptStep lcc e sr).last_cycle_count ≤ 2147483647 →
      0 < (adaptStep32 lcc e sr).last_cycle_count := by
  refine ⟨by decide, ?_⟩
  intro lcc e sr hpos hle
  have hid := adaptStep_pos lcc e sr hpos
  show 0 < toInt32 ((adaptStep lcc e sr).last_cycle_count)
  unfold toInt32
  omega

/-- C9, witness for the amended theorem: one in-range update from the
initial estimate 1 at 16 ms elapsed. -/
theorem c9_estimate_positive_no_overflow_witness :
    0 < lccInit ∧ 0 < (adaptStep32 1 16 0).last_cycle_count :=
  ⟨c9_estimate_positive_no_overflow.1,
   c9_estimate_positive_no_overflow.2 1 16 0 (by decide) (by decide)⟩

/-- Helper: under the resume contract, a slice started with a nonnegative
budget reports at most that budget as executed. -/
theorem runSlice_executed_le (resps : Nat → Int → Resp) (hc : ResumeContract resps) :
    ∀ (fuel : Nat) (cl : Int) (k : Nat) (out : SliceOut), 0 ≤ cl →
      runSlice fuel cl resps k = some out → (out.executed : Int) ≤ cl := by
  intro fuel
  induction fuel with
  | zero => intro cl k out _ hrun; simp [runSlice] at hrun
  | succ m ih =>
    intro cl k out h0 hrun
    by_cases hcl : cl ≤ 0
    · simp [runSlice, hcl] at hrun
      rw [← hrun]
      simpa using h0
    · have hpos : 0 < cl := by omega
      have hce := hc k cl hpos
      by_cases hbr : ((resps k cl).fault && !(resps k cl).recoverable) = true
      · simp [runSlice, hcl, hbr] at hrun
        rw [← hrun]
        exact hce
      · simp [runSlice, hcl, hbr] at hrun
        rcases hrun with ⟨out2, hrec, hout⟩
        have h2 := ih (cl - ((resps k cl).executed : Int)) (k + 1) out2 (by omega) hrec
        rw [← hout]
        simp only []
        push_cast
        omega

/-- Helper: under the strict fault contract, a slice that broke on an
unrecoverable fault was entered with a positive budget and reports strictly
fewer executed cycles than that budget. -/
theorem runSlice_broke_lt (resps : Nat → Int → Resp)
    (hf : FaultUnderruns resps) :
    ∀ (fuel : Nat) (cl : Int) (k : Nat) (out : SliceOut),
      runSlice fuel cl resps k = some out → out.broke = true →
      0 < cl ∧ (out.executed : Int) < cl := by
  intro fuel
  induction fuel with
  | zero => intro cl k out hrun; simp [runSlice] at hrun
  | succ m ih =>
    intro cl k out hrun hbroke
    by_cases hcl : cl ≤ 0
    · simp [runSlice, hcl] at hrun
      rw [← hrun] at hbroke
      simp at hbroke
    · have hpos : 0 < cl := by omega
      by_cases hbr : ((resps k cl).fault && !(resps k cl).recoverable) = true
      · simp [runSlice, hcl, hbr] at hrun
        have hfa : (resps k cl).fault = true := by
          rcases Bool.and_eq_true_iff.mp hbr with ⟨hfa, _⟩
          exact hfa
        have hre : (resps k cl).recoverable = false := by
          rcases Bool.and_eq_true_iff.mp hbr with ⟨_, hre⟩
          simpa using hre
        have := hf k cl hpos hfa hre
        rw [← hrun]
        exact ⟨hpos, this⟩
      · simp [runSlice, hcl, hbr] at hrun
        rcases hrun with ⟨out2, hrec, hout⟩
        have hbroke2 : out2.broke = true := by
          rw [← hout] at hbroke
          simpa using hbroke
        have h2 := ih (cl - ((resps k cl).executed : Int)) (k + 1) out2 hrec hbroke2
        refine ⟨hpos, ?_⟩
        rw [← hout]
        simp only []
        push_cast
        omega


/-- Helper: under both contracts, the slice loop over a list of nonnegative
budgets executes at most the sum of the budgets in total, and strictly fewer
when any slice broke on an unrecoverable fault. -/
theorem runSlices_executed (resps : Nat → Int → Resp)
    (hc : ResumeContract resps) (hf : FaultUnderruns resps) :
    ∀ (bs : List Int) (fuel k tot k2 : Nat) (broke : Bool),
      (∀ b ∈ bs, 0 ≤ b) →
      runSlices fuel resps bs k = some (tot, k2, broke) →
      (tot : Int) ≤ bs.sum ∧ (broke = true → (tot : Int) < bs.sum) := by
  intro bs
  induction bs with
  | nil =>
    intro fuel k tot k2 broke _ hrun
    simp [runSlices] at hrun
    rcases hrun with ⟨htot, _, hbroke⟩
    constructor
    · simp [← htot]
    · intro hb; rw [hbroke] at hb; cases hb
  | cons b bs ih =>
    intro fuel k tot k2 broke hnn hrun
    have hb : 0 ≤ b := hnn b (List.mem_cons_self b bs)
    have hbs : ∀ x ∈ bs, 0 ≤ x := fun x hx => hnn x (List.mem_cons_of_mem b hx)
    rw [runSlices] at hrun
    cases hs : runSlice fuel b resps k with
    | none => rw [hs] at hrun; simp at hrun
    | some out =>
      rw [hs, Option.some_bind] at hrun
      cases hrest : runSlices fuel resps bs out.next with
      | none => rw [hrest] at hrun; simp at hrun
      | some trip =>
        obtain ⟨tot2, k3, broke2⟩ := trip
        rw [hrest] at hrun
        simp at hrun
        rcases hrun with ⟨htot, _, hbroke⟩
        have hle := runSlice_executed_le resps hc fuel b k out hb hs
        have hrest2 := ih fuel out.next tot2 k3 broke2 hbs hrest
        cases hob : out.broke with
        | true =>
          have hlt := (runSlice_broke_lt resps hf fuel b k out hs hob).2
          constructor
          · rw [← htot]; simp [List.sum_cons]; omega
          · intro _; rw [← htot]; simp [List.sum_cons]; omega
        | false =>
          constructor
          · rw [← htot]; simp [List.sum_cons]; omega
          · intro hbt
            rw [← hbroke, hob] at hbt
            simp at hbt
            have := hrest2.2 hbt
            rw [← htot]; simp [List.sum_cons]; omega

/-- Helper: the slice budgets of a tick of `dt ≥ 1` slices sum to
`cycles_per_tick * dt + extra_cycles`. -/
theorem sliceBudget_sum (dt : Nat) (cpt ex : Int) (h : 1 ≤ dt) :
    ((List.range dt).map (sliceBudget dt cpt ex)).sum = cpt * dt + ex := by
  obtain ⟨m, rfl⟩ : ∃ m, dt = m + 1 := ⟨dt - 1, by omega⟩
  rw [List.range_succ, List.map_append, List.sum_append]
  have hfront : (List.range m).map (sliceBudget (m + 1) cpt ex)
      = (List.range m).map (fun _ => cpt) := by
    apply List.map_congr_left
    intro i hi
    have : i < m := List.mem_range.mp hi
    unfold sliceBudget
    rw [if_neg (by omega)]
  rw [hfront]
  have hlast : sliceBudget (m + 1) cpt ex m = cpt + ex := by
    unfold sliceBudget
    rw [if_pos (by omega)]
  simp only [List.map_singleton, List.sum_singleton, hlast]
  rw [List.map_const', List.sum_replicate, List.length_range]
  push_cast [nsmul_eq_mul]
  ring

/-- C5, counterexample: tick of `dt = 2` slices with `cycles_per_tick = 5`,
`extra_cycles = 0`; the very first resume call of the tick returns an
unrecoverable fault having executed 0 cycles (`c5resps`). The claimed
abandonment of the remainder of the entire tick's budget would leave the
tick's total executed count at 0, but the code only breaks out of the
current millisecond slice: the second slice still runs its full 5-cycle
budget, so the tick executes 5 cycles, not 0. -/
theorem c5_counterexample :
    c5resps 0 (sliceBudget 2 5 0 0) = ⟨true, false, 0⟩ ∧
    runTick 10 2 5 0 c5resps = some (5, 2, true) ∧
    (5 : Nat) ≠ 0 := by
  refine ⟨by decide, by decide, by decide⟩

/-- C5, amended: an unrecoverable fault abandons the remainder of the current
millisecond slice's budget only; the remaining slices of the tick still run
with their own budgets. Under the resume contract (a call never executes more
than the budget it is passed, and a call ending in an unrecoverable fault
executes strictly fewer), the total executed count summed across a tick is at
most the requested per-tick budget `cycles_per_tick * dt + extra_cycles`, and
strictly less whenever some slice was abandoned; the next tick's budget is
recomputed afresh from elapsed time alone (no carry-over of abandoned
cycles). -/
theorem c5_fault_abandons_slice (resps : Nat → Int → Resp) (fuel dt : Nat)
    (cycles_per_tick extra_cycles : Int) (tot k : Nat) (broke : Bool)
    (hc : ResumeContract resps) (hf : FaultUnderruns resps)
    (hdt : 1 ≤ dt) (hcpt : 0 ≤ cycles_per_tick) (hex : 0 ≤ extra_cycles)
    (hrun : runTick fuel dt cycles_per_tick extra_cycles resps = some (tot, k, broke)) :
    (tot : Int) ≤ cycles_per_tick * dt + extra_cycles ∧
    (broke = true → (tot : Int) < cycles_per_tick * dt + extra_cycles) := by
  have hnn : ∀ b ∈ (List.range dt).map (sliceBudget dt cycles_per_tick extra_cycles), 0 ≤ b := by
    intro b hb
    rcases List.mem_map.mp hb with ⟨i, _, rfl⟩
    unfold sliceBudget
    split <;> omega
  have := runSlices_executed resps hc hf
    ((List.range dt).map (sliceBudget dt cycles_per_tick extra_cycles))
    fuel 0 tot k broke hnn hrun
  rw [sliceBudget_sum dt cycles_per_tick extra_cycles hdt] at this
  exact this

/-- C5, witness for the amended theorem: one slice of budget 3 whose first
resume call faults unrecoverably with nothing executed. -/
theorem c5_fault_abandons_slice_witness :
    runTick 2 1 3 0 c5witResp = some (0, 1, true) ∧
    (0 : Int) ≤ 3 * (1 : Nat) + 0 ∧ ((0 : Nat) : Int) < 3 * (1 : Nat) + 0 := by
  have hc : ResumeContract c5witResp := by
    intro k cl h
    show ((0 : Nat) : Int) ≤ cl
    omega
  have hf : FaultUnderruns c5witResp := by
    intro k cl h _ _
    show ((0 : Nat) : Int) < cl
    omega
  have hrun : runTick 2 1 3 0 c5witResp = some (0, 1, true) := by decide
  have h := c5_fault_abandons_slice c5witResp 2 1 3 0 0 1 true hc hf
    (by decide) (by decide) (by decide) hrun
  exact ⟨hrun, h.1, h.2 rfl⟩

/-- C10: the inner budget-consumption loop of a millisecond slice terminates
(with fuel one more than the remaining budget) whenever every resume call
with a positive budget either reports at least one executed cycle or returns
a fault whose recovery fails; and without that precondition it need not
terminate: against the oracle answering success with zero executed cycles,
the loop started with budget 1 exhausts every fuel bound (its
remaining-cycles counter never decreases). -/
theorem c10_slice_loop_termination :
    (∀ (resps : Nat → Int → Resp),
      (∀ (k : Nat) (cl : Int), 0 < cl → 1 ≤ (resps k cl).executed ∨
        ((resps k cl).fault = true ∧ (resps k cl).recoverable = false)) →
      ∀ (fuel : Nat) (cl : Int) (k : Nat), cl.toNat < fuel →
        (runSlice fuel cl resps k).isSome = true) ∧
    (∀ (fuel k : Nat), runSlice fuel 1 c10zeroResp k = none) := by
  constructor
  · intro resps hpre fuel
    induction fuel with
    | zero => intro cl k hlt; exact absurd hlt (Nat.not_lt_zero _)
    | succ m ih =>
      intro cl k hlt
      by_cases hcl : cl ≤ 0
      · simp [runSlice, hcl]
      · have hpos : 0 < cl := by omega
        by_cases hbr : ((resps k cl).fault && !(resps k cl).recoverable) = true
        · simp [runSlice, hcl, hbr]
        · have hexe : 1 ≤ (resps k cl).executed := by
            rcases hpre k cl hpos with h1 | h2
            · exact h1
            · exfalso; apply hbr; simp [h2.1, h2.2]
          have hrec : (cl - ((resps k cl).executed : Int)).toNat < m := by omega
          have hs := ih (cl - ((resps k cl).executed : Int)) (k + 1) hrec
          rcases Option.isSome_iff_exists.mp hs with ⟨out, hout⟩
          simp [runSlice, hcl, hbr, hout]
  · intro fuel
    induction fuel with
    | zero => intro k; rfl
    | succ m ih =>
      intro k
      simp [runSlice, c10zeroResp, ih]

/-- C10, witness: against the oracle that always executes exactly one cycle,
the slice loop with budget 5 and fuel 6 returns a result. -/
theorem c10_slice_loop_termination_witness :
    (runSlice 6 5 c10oneResp 0).isSome = true :=
  c10_slice_loop_termination.1 c10oneResp
    (fun _ _ _ => Or.inl (Nat.le_refl 1)) 6 5 0 (by decide)
